import Mathlib

/-
Verification development for the airstation repository.

The Python sources are shallowly embedded:
  - Python dictionaries become insertion-ordered association lists over a
    value type PyVal; dict.update and dict lookup are modelled explicitly.
  - Python float values are modelled as exact rationals; the float() string
    conversion is modelled by an executable decimal parser (signed decimal
    digits, optional fraction, optional exponent). Binary rounding of IEEE
    doubles is not modelled; no claim here depends on it.
  - CSV records are modelled at the level of header and cell strings; csv
    quoting is not modelled (no claim involves cells with delimiters).
  - Effectful calls (HTTP posts, prints, exits) become explicit event lists.
-/

/-- Model of the Python values that occur in the scripts. -/
inductive PyVal where
  | none
  | bool (b : Bool)
  | int (n : Int)
  | float (q : ℚ)
  | str (s : String)
deriving DecidableEq, Repr

/-- A Python dict as an insertion-ordered association list. -/
abbrev Dict := List (String × PyVal)

/-- Dict lookup: first binding of the key (keys are unique in dicts built by the model). -/
def dictGet? (d : Dict) (k : String) : Option PyVal :=
  match d with
  | [] => Option.none
  | (k1, v) :: rest => if k1 = k then some v else dictGet? rest k

/-- Python d.get(k): None when the key is absent. -/
def dictGetD (d : Dict) (k : String) : PyVal :=
  (dictGet? d k).getD PyVal.none

/-- Python d[k] = v: overwrite in place when the key exists, else append. -/
def dictSet (d : Dict) (k : String) (v : PyVal) : Dict :=
  match d with
  | [] => [(k, v)]
  | (k1, v1) :: rest => if k1 = k then (k1, v) :: rest else (k1, v1) :: dictSet rest k v

/-- Python d.update(e): set every binding of e, in order. -/
def dictUpdate (d e : Dict) : Dict :=
  e.foldl (fun acc p => dictSet acc p.1 p.2) d

/-- Characters stripped by str.strip() (ASCII whitespace, as used by the logs). -/
def isPySpace (c : Char) : Bool :=
  c = ' ' || c = '\t' || c = '\n' || c = '\r' || c = '\x0b' || c = '\x0c'

/-- Model of Python str.strip(). -/
def pyStrip (s : String) : String :=
  ⟨(((s.data.dropWhile isPySpace).reverse.dropWhile isPySpace).reverse)⟩

/-- Model of Python str.endswith. -/
def pyEndsWith (s p : String) : Bool :=
  p.data.reverse.isPrefixOf s.data.reverse

/-- Decimal digits to a natural number. -/
def digitsToNat (l : List Char) : ℕ :=
  l.foldl (fun a c => a * 10 + (c.toNat - 48)) 0

/-- Ten to an integer power, as a rational. -/
def zpow10 : Int → ℚ
  | .ofNat n => (10 : ℚ) ^ n
  | .negSucc n => 1 / (10 : ℚ) ^ (n + 1)

/-- Exponent part of a float literal, after the e marker. -/
def parseExpPart (cs : List Char) : Option Int :=
  let (sgn, rest) : Int × List Char :=
    match cs with
    | '+' :: r => (1, r)
    | '-' :: r => (-1, r)
    | r => (1, r)
  if rest.isEmpty then Option.none
  else if rest.all Char.isDigit then some (sgn * (digitsToNat rest : Int))
  else Option.none

/-- Mantissa and the rest of the input: digits, optional point, digits. -/
def parseMantissa (cs : List Char) : Option (ℚ × List Char) :=
  let ip := cs.takeWhile Char.isDigit
  let rest := cs.dropWhile Char.isDigit
  match rest with
  | '.' :: r2 =>
      let fp := r2.takeWhile Char.isDigit
      let rest2 := r2.dropWhile Char.isDigit
      if ip.isEmpty && fp.isEmpty then Option.none
      else some (((digitsToNat (ip ++ fp) : ℚ) / (10 : ℚ) ^ fp.length), rest2)
  | _ =>
      if ip.isEmpty then Option.none
      else some ((digitsToNat ip : ℚ), rest)

/-- Model of Python float(s) on decimal literals: strip, optional sign,
digits with optional fraction, optional exponent. inf and nan literals are
not modelled; no claim depends on them. -/
def pyFloat? (s : String) : Option ℚ :=
  let cs := (pyStrip s).data
  let (sgn, cs1) : ℚ × List Char :=
    match cs with
    | '+' :: r => (1, r)
    | '-' :: r => (-1, r)
    | r => (1, r)
  match parseMantissa cs1 with
  | Option.none => Option.none
  | some (m, rest) =>
      match rest with
      | [] => some (sgn * m)
      | 'e' :: r3 => (parseExpPart r3).map (fun e => sgn * m * zpow10 e)
      | 'E' :: r3 => (parseExpPart r3).map (fun e => sgn * m * zpow10 e)
      | _ => Option.none

/-- Round half to even, for the Python fixed-point format codes. -/
def rhe (x : ℚ) : Int :=
  let f : Int := x.num.fdiv (x.den : Int)
  let rem : Int := x.num - f * (x.den : Int)
  if 2 * rem < (x.den : Int) then f
  else if (x.den : Int) < 2 * rem then f + 1
  else if f % 2 = 0 then f else f + 1

/-- Model of the .1f format code on a number. -/
def fmtF1 (q : ℚ) : String :=
  let n := rhe (q * 10)
  let sgn := if n < 0 then "-" else ""
  sgn ++ toString (n.natAbs / 10) ++ "." ++ toString (n.natAbs % 10)

/-- Model of the .0f format code on a number. -/
def fmtF0 (q : ℚ) : String :=
  let n := rhe q
  (if n < 0 then "-" else "") ++ toString n.natAbs

/-- Left pad with spaces to a minimum width. -/
def padLeft (w : Nat) (s : String) : String :=
  ⟨List.replicate (w - s.data.length) ' ' ++ s.data⟩

/-- Model of Python str() on the values above. Its exact output on float
values is irrelevant to every claim; a plain decimal rendering stands in. -/
def pyStr : PyVal → String
  | .none => "None"
  | .bool b => if b then "True" else "False"
  | .int n => (if n < 0 then "-" else "") ++ toString n.natAbs
  | .float q => fmtF1 q
  | .str s => s

/-- Python truthiness of a value. -/
def pyTruthy : PyVal → Bool
  | .none => false
  | .bool b => b
  | .int n => n ≠ 0
  | .float q => q ≠ 0
  | .str s => s ≠ ""

/-
Embedding of src/dashboard/load_old_csv_to_firebase.py
-/

/-- BATCH_SIZE constant of the backfill script. -/
def BATCH_SIZE : ℕ := 500

/-- One cell as csv.DictReader hands it to the row loop: a header name
(None for a blank or missing header) and a raw cell value (None when the
row is shorter than the header). -/
abbrev RawCell := Option String × Option String

/-- One data row of the CSV file, as iterated by csv.DictReader. -/
abbrev RawRow := List RawCell

/-- The row loop body of process_log_file: skip blank headers and
columns ending in _present, keep timestamp as a string, convert the other
cells to float or None, and reject the whole row on a conversion error. -/
def processRow : RawRow → Dict → Option Dict
  | [], data => some data
  | (Option.none, _) :: rest, data => processRow rest data
  | (some k, v) :: rest, data =>
      if pyEndsWith k "_present" then processRow rest data
      else if k = "timestamp" then
        processRow rest (dictSet data k (match v with
          | Option.none => PyVal.none
          | some s => PyVal.str s))
      else
        match v with
        | Option.none => processRow rest (dictSet data k PyVal.none)
        | some s =>
            if pyStrip s = "" then processRow rest (dictSet data k PyVal.none)
            else
              match pyFloat? s with
              | some q => processRow rest (dictSet data k (PyVal.float q))
              | Option.none => Option.none

/-- Batching step of process_log_file: append a converted, non-empty row to
the current batch and flush the batch once it reaches BATCH_SIZE. -/
def batchStep (acc : List (List Dict) × List Dict) (r : RawRow) :
    List (List Dict) × List Dict :=
  match processRow r [] with
  | some data =>
      if data.isEmpty then acc
      else
        let cur := acc.2 ++ [data]
        if BATCH_SIZE ≤ cur.length then (acc.1 ++ [cur], []) else (acc.1, cur)
  | Option.none => acc

/-- The batches sent by one run of process_log_file over the given rows, in
call order: full batches flushed inside the loop, then the final short
batch when it is non-empty. -/
def process_log_file (rows : List RawRow) : List (List Dict) :=
  let fin := rows.foldl batchStep ([], [])
  if fin.2.isEmpty then fin.1 else fin.1 ++ [fin.2]

/-- A cell is valid for the claim when its value needs no conversion or
converts to float, or is blank. -/
def cellValid (k : String) (v : Option String) : Bool :=
  if pyEndsWith k "_present" then true
  else if k = "timestamp" then true
  else
    match v with
    | Option.none => true
    | some s => (pyStrip s = "") || (pyFloat? s).isSome

/-- A row is valid when every named cell is valid. -/
def rowValid (r : RawRow) : Bool :=
  r.all (fun p =>
    match p.1 with
    | Option.none => true
    | some k => cellValid k p.2)

/-- A row contributes a record at all only when some named column survives
the _present filter. -/
def rowKept (r : RawRow) : Bool :=
  r.any (fun p =>
    match p.1 with
    | Option.none => false
    | some k => !(pyEndsWith k "_present"))

/-- Observable effects of send_batch_to_firebase. -/
inductive FbEvent where
  | warnEmpty
  | post (batch : List Dict)
deriving DecidableEq, Repr

/-- send_batch_to_firebase: an empty batch only prints a warning and
returns; a non-empty batch is sent as one POST. -/
def send_batch_to_firebase (batch : List Dict) : List FbEvent :=
  if batch.isEmpty then [FbEvent.warnEmpty] else [FbEvent.post batch]

/-- The POST-level events of a whole backfill run over the given rows. -/
def backfillPosts (rows : List RawRow) : List FbEvent :=
  (process_log_file rows).flatMap send_batch_to_firebase

/-- Failure modes of reading the CSV file in the backfill script. -/
inductive PyErr where
  | fileNotFound
  | other (msg : String)
deriving DecidableEq, Repr

/-- Observable events of the backfill script. -/
inductive BackfillEvent where
  | printed (msg : String)
  | posted (batch : List Dict)
deriving DecidableEq, Repr

/-- process_log_file with its error handlers: a missing file and any other
exception are caught and reported as a printed message; the function always
returns normally. -/
def process_log_file_events (input : Except PyErr (List RawRow)) : List BackfillEvent :=
  match input with
  | .error PyErr.fileNotFound => [BackfillEvent.printed "Error: File not found. Please check the path."]
  | .error (PyErr.other m) => [BackfillEvent.printed ("An unexpected error occurred: " ++ m)]
  | .ok rows => (process_log_file rows).map BackfillEvent.posted

/-- The main entry of the backfill script: exit code 1 when the CSV path
argument is missing, else run process_log_file and finish with code 0. -/
def backfill_main (argv : List String) (input : Except PyErr (List RawRow)) :
    List BackfillEvent × ℕ :=
  if argv.length < 2 then
    ([BackfillEvent.printed "Usage: python3 log_uploader.py <path/to/logfile.csv>"], 1)
  else
    (process_log_file_events input ++ [BackfillEvent.printed "Processing complete."], 0)

/-
Embedding of src/service/capture.py
-/

/-- One sensor in one iteration of the capture loop: the class name and the
outcome of s.read(), either a returned dict or a raised exception. -/
structure SensorRun where
  name : String
  result : Except String Dict

/-- The keys a sensor step writes into the merged readings. -/
def writtenKeys (s : SensorRun) : List String :=
  match s.result with
  | .ok d => d.map Prod.fst
  | .error _ => [s.name ++ "_catastrophic_error"]

/-- The errors entry the loop appends when the dict carries the key the
loop checks for, namely the class name followed by _error. -/
def sensorErrorMsg (s : SensorRun) (d : Dict) : List String :=
  match dictGet? d (s.name ++ "_error") with
  | some v => [s.name ++ " failed: " ++ pyStr v]
  | Option.none => []

/-- Body of the per-sensor for loop: merge a returned dict, or record a
raised exception under name_catastrophic_error; either way continue. -/
def cycleStep (acc : Dict × List String) (s : SensorRun) : Dict × List String :=
  match s.result with
  | .ok d => (dictUpdate acc.1 d, acc.2 ++ sensorErrorMsg s d)
  | .error e =>
      let msg := s.name ++ " failed catastrophically: " ++ e
      (dictSet acc.1 (s.name ++ "_catastrophic_error") (PyVal.str msg), acc.2 ++ [msg])

/-- A sensor read has failed in this iteration: its read raised, so the
loop stores the message under name_catastrophic_error, or it returned a
dict already carrying a string under a key ending in _error. In both cases
ek names the field the failure is recorded under. -/
def failsWith (s : SensorRun) (ek : String) : Prop :=
  (∃ e, s.result = .error e ∧ ek = s.name ++ "_catastrophic_error")
  ∨ (∃ d2 m, s.result = .ok d2 ∧ (d2.map Prod.fst).Nodup
       ∧ dictGet? d2 ek = some (PyVal.str m) ∧ pyEndsWith ek "_error" = true)

/-- One iteration of the capture loop in main: start from the timestamp,
fold every sensor, then join the collected errors into an errors field. -/
def runCycle (ts : String) (sensors : List SensorRun) : Dict × List String :=
  let res := sensors.foldl cycleStep ([("timestamp", PyVal.str ts)], [])
  if res.2.isEmpty then res
  else (dictSet res.1 "errors" (PyVal.str (String.intercalate "; " res.2)), res.2)

/-- State of the MHZ19Sensor object: its present flag. -/
structure MHZ19Sensor where
  present : Bool
deriving DecidableEq, Repr

/-- What one call of mh_z19.read() can produce when it does not raise: a
dict containing the key co2, or any other value. -/
inductive MhzResp where
  | co2Dict (v : PyVal)
  | other
deriving DecidableEq, Repr

/-- MHZ19Sensor.read: when present is already False return the present
dict without touching the hardware; a raised exception clears present.
The last component records whether the hardware was read at all. -/
def mhz19_read (s : MHZ19Sensor) (hw : Except String MhzResp) :
    MHZ19Sensor × Dict × Bool :=
  if s.present = false then (s, [("mhz19_present", PyVal.bool false)], false)
  else
    match hw with
    | .ok (MhzResp.co2Dict v) =>
        (s, [("mhz19_present", PyVal.bool true), ("co2_ppm", v)], true)
    | .ok MhzResp.other =>
        (s, [("mhz19_present", PyVal.bool true),
             ("mhz19_error", PyVal.str "Invalid response or key missing")], true)
    | .error e =>
        (⟨false⟩, [("mhz19_present", PyVal.bool true), ("mhz19_error", PyVal.str e)], true)

/-- Iterate mhz19_read over a sequence of hardware outcomes. -/
def mhz19_run (s : MHZ19Sensor) : List (Except String MhzResp) →
    MHZ19Sensor × List (Dict × Bool)
  | [] => (s, [])
  | hw :: rest =>
      let step := mhz19_read s hw
      let tail := mhz19_run step.1 rest
      (tail.1, step.2 :: tail.2)

/-- The fixed field order of DataLogger.log_csv. -/
def base_fieldnames : List String :=
  ["timestamp",
   "aht21_present", "temperature_C", "humidity_pct",
   "ens160_present", "AQI", "TVOC_ppb", "eCO2_ppm",
   "bmp180_present", "pressure_hPa", "altitude_m",
   "mhz19_present", "co2_ppm"]

/-- The duplicate-skipping append loops of log_csv. -/
def dedupAppend (acc : List String) (l : List String) : List String :=
  l.foldl (fun a f => if f ∈ a then a else a ++ [f]) acc

/-- Code-point comparison of strings, as Python sorted uses on str. -/
def chLt : List Char → List Char → Bool
  | [], [] => false
  | [], _ :: _ => true
  | _ :: _, [] => false
  | a :: as, b :: bs => if a < b then true else if b < a then false else chLt as bs

/-- Stable insertion of a string into a sorted list. -/
def insertSorted (x : String) : List String → List String
  | [] => [x]
  | y :: ys => if chLt y.data x.data then y :: insertSorted x ys else x :: y :: ys

/-- Model of Python sorted on a list of strings. -/
def sortStrings : List String → List String
  | [] => []
  | x :: xs => insertSorted x (sortStrings xs)

/-- The data log_csv actually writes: everything except the errors field. -/
def dataToLog (data : Dict) : Dict :=
  data.filter (fun p => p.1 ≠ "errors")

/-- The fieldnames log_csv computes: the base order, then the sorted
_error fields, deduplicated, then any unexpected keys of the data. -/
def log_csv_fieldnames (data : Dict) : List String :=
  let dtl := dataToLog data
  let error_fields := sortStrings (((dtl.map Prod.fst).filter (fun k => pyEndsWith k "_error")))
  dedupAppend (dedupAppend [] (base_fieldnames ++ error_fields)) (dtl.map Prod.fst)

/-- The cell csv.DictWriter emits for one fieldname: restval for a missing
key, the empty string for None, str(v) otherwise. -/
def csvCell (dtl : Dict) (f : String) : String :=
  match dictGet? dtl f with
  | some PyVal.none => ""
  | some v => pyStr v
  | Option.none => ""

/-- DataLogger.log_csv of one record: the header and the written cells. -/
def log_csv (data : Dict) : List String × List String :=
  let fns := log_csv_fieldnames data
  (fns, fns.map (csvCell (dataToLog data)))

/-- Reading one written record back through the row conversion of
process_log_file: csv.DictReader pairs the header with the cells. -/
def readBackRow (rec : List String × List String) : Option Dict :=
  processRow ((rec.1.zip rec.2).map (fun p => (some p.1, some p.2))) []

/-- The value the read side of the roundtrip reconstructs for one
fieldname, given the cell written under it: _present columns are skipped,
the timestamp stays a string, blanks become None, the rest parse as float. -/
def expectedVal (cell : String → String) (f : String) : Option PyVal :=
  if pyEndsWith f "_present" then Option.none
  else if f = "timestamp" then some (PyVal.str (cell f))
  else if pyStrip (cell f) = "" then some PyVal.none
  else (pyFloat? (cell f)).map PyVal.float

/-- The reconstructed record over a list of fieldnames. -/
def expectedDict (cell : String → String) (fns : List String) : Dict :=
  fns.filterMap (fun f => (expectedVal cell f).map (fun v => (f, v)))

/-- A written cell the read side accepts: skipped, kept verbatim, blank,
or float-parseable. -/
def cellOK (cell : String → String) (f : String) : Prop :=
  pyEndsWith f "_present" = true ∨ f = "timestamp"
  ∨ pyStrip (cell f) = "" ∨ (pyFloat? (cell f)).isSome = true

/-- Outcome of one DisplayManager.show_summary call. -/
inductive OledOutcome where
  | skipped
  | rendered (line1 line2 : String)
  | aborted (err : String)
deriving DecidableEq, Repr

/-- A Python format code .1f or .0f applied to a value: numbers format,
str and None raise. -/
def pyFormat (v : PyVal) (render : ℚ → String) : Except String String :=
  match v with
  | .int n => .ok (render (n : ℚ))
  | .float q => .ok (render q)
  | .bool b => .ok (render (if b then 1 else 0))
  | .str _ => .error "Unknown format code f for object of type str"
  | .none => .error "unsupported format string passed to NoneType.__format__"

/-- Python comparison v > 0: defined for numbers, a TypeError otherwise. -/
def pyGtZero (v : PyVal) : Except String Bool :=
  match v with
  | .int n => .ok (0 < n)
  | .float q => .ok (0 < q)
  | .bool b => .ok b
  | .str _ => .error "not supported between instances of str and int"
  | .none => .error "not supported between instances of NoneType and int"

/-- DisplayManager.show_summary: falsy values render as a bare placeholder;
formatting a truthy value can raise, and the broad except catches it and
abandons the frame. -/
def show_summary (available : Bool) (t h co2 : PyVal) : OledOutcome :=
  if available = false then OledOutcome.skipped
  else
    match (if pyTruthy t then (pyFormat t (fun q => padLeft 4 (fmtF1 q))).map (· ++ "°C")
           else .ok "---") with
    | .error e => OledOutcome.aborted e
    | .ok t_str =>
      match (if pyTruthy h then (pyFormat h (fun q => padLeft 4 (fmtF1 q))).map (· ++ "%")
             else .ok "---") with
      | .error e => OledOutcome.aborted e
      | .ok h_str =>
        match (if pyTruthy co2 then
                 (match pyGtZero co2 with
                  | .error e => .error e
                  | .ok true => (pyFormat co2 (fun q => padLeft 4 (fmtF0 q))).map (· ++ "ppm")
                  | .ok false => .ok "---ppm" : Except String String)
               else .ok "---ppm") with
        | .error e => OledOutcome.aborted e
        | .ok co2_str =>
            OledOutcome.rendered (t_str ++ "     " ++ h_str) ("CO2: " ++ co2_str)

/-
Embedding of src/sensors/capture.py
-/

/-- The helper of format_console: numbers format with a unit, missing or
non-coercible values render as a placeholder with the unit; never raises. -/
def fmt_num (v : PyVal) (unit : String) : String :=
  match v with
  | .int n => fmtF1 (n : ℚ) ++ unit
  | .float q => fmtF1 q ++ unit
  | .bool b => fmtF1 (if b then 1 else 0) ++ unit
  | .none => "---" ++ unit
  | .str s =>
      if s = "" then "---" ++ unit
      else
        match pyFloat? s with
        | some q => fmtF1 q ++ unit
        | Option.none => "---" ++ unit

/-- format_console: assemble the console line from the BMP dict and the
other readings, tolerating missing values everywhere. -/
def format_console (ts : String) (bmp_data : Dict) (co2_ppm co2_src humidity dew_point : PyVal)
    (errors : String) : String :=
  let err_display := if errors ≠ "" then " ERRORS=" ++ errors else ""
  let temp_str := fmt_num (dictGetD bmp_data "temperature_C") "°C"
  let pres_str := fmt_num (dictGetD bmp_data "pressure_hPa") "hPa"
  let alt_str := fmt_num (dictGetD bmp_data "altitude_m") "m"
  let hum_str := fmt_num humidity "%"
  let dew_str := fmt_num dew_point "°C"
  let co2_str :=
    match co2_ppm with
    | .int n => pyStr (PyVal.int n) ++ "ppm"
    | .float q => pyStr (PyVal.float q) ++ "ppm"
    | .bool b => pyStr (PyVal.bool b) ++ "ppm"
    | _ => "---ppm"
  ts ++ " | T=" ++ temp_str ++ " P=" ++ pres_str ++ " Alt=" ++ alt_str ++
    " RH=" ++ hum_str ++ " Dew=" ++ dew_str ++ " CO₂=" ++ co2_str ++
    " [" ++ pyStr co2_src ++ "]" ++ err_display

/-- The USE_CO2_MOCK_ON_FAIL constant of the sensors capture script. -/
def USE_CO2_MOCK_ON_FAIL : Bool := true

/-- The except branch of read_mhz19: a deterministic mock value derived
from the current minute, or an error marker when the mock is disabled. -/
def mhz19Fallback (e : String) (minute : ℕ) : Dict :=
  if USE_CO2_MOCK_ON_FAIL then
    [("co2_ppm", PyVal.int (450 + ((minute % 30 : ℕ) : Int) * 10)),
     ("co2_source", PyVal.str "mock"), ("error", PyVal.str e)]
  else
    [("co2_ppm", PyVal.str ""), ("co2_source", PyVal.str "error"), ("error", PyVal.str e)]

/-- Whether the underlying mh_z19 read fails for read_mhz19: it raises, or
returns anything that is not a dict carrying the key co2. -/
def hwFails : Except String MhzResp → Bool
  | .ok (MhzResp.co2Dict _) => false
  | _ => true

/-- read_mhz19: the sensor value on success, otherwise the ValueError or
the raised exception is caught and the fallback is returned. -/
def read_mhz19 (hw : Except String MhzResp) (minute : ℕ) : Dict :=
  match hw with
  | .ok (MhzResp.co2Dict v) => [("co2_ppm", v), ("co2_source", PyVal.str "sensor")]
  | .ok MhzResp.other => mhz19Fallback "Unexpected mh_z19 response" minute
  | .error e => mhz19Fallback e minute

/-
Embedding of src/dashboard/main.py
-/

/-- One row of a daily CSV as the dashboard sees it after
pd.to_datetime(..., errors=coerce): the coerced timestamp, None when the
raw string was invalid, plus the remaining columns left uninterpreted. -/
structure CsvRow where
  ts : Option Int
  payload : String
deriving DecidableEq, Repr

/-- The 24 hour window width, in the timestamp unit (seconds). -/
def WINDOW_24H : Int := 86400

/-- Reading one daily file in load_data: a missing or unreadable file is
skipped entirely, otherwise rows with invalid timestamps are dropped. -/
def loadFile : Option (List CsvRow) → List (List CsvRow)
  | Option.none => []
  | some rows => [rows.filter (fun r => r.ts.isSome)]

/-- The ascending timestamp order used by sort_values. -/
def tsLe (a b : CsvRow) : Prop :=
  a.ts.getD 0 ≤ b.ts.getD 0

instance : DecidableRel tsLe :=
  fun a b => inferInstanceAs (Decidable (a.ts.getD 0 ≤ b.ts.getD 0))

instance : IsTotal CsvRow tsLe :=
  ⟨fun _ _ => Int.le_total _ _⟩

instance : IsTrans CsvRow tsLe :=
  ⟨fun _ _ _ => Int.le_trans⟩

/-- load_data: read the two daily files, concatenate, sort ascending by
timestamp, and keep the rows at or after now minus 24 hours. -/
def load_data (yFile tFile : Option (List CsvRow)) (now : Int) : List CsvRow :=
  let dfs := loadFile yFile ++ loadFile tFile
  if dfs.isEmpty then []
  else
    (List.insertionSort tsLe dfs.flatten).filter
      (fun r => now - WINDOW_24H ≤ r.ts.getD 0)

/-- The three route payloads of the dashboard API. -/
inductive HttpResp where
  | htmlPage (latest : Option CsvRow) (data : List CsvRow)
  | jsonObj (latest : Option CsvRow)
  | jsonList (rows : List CsvRow)
deriving DecidableEq, Repr

/-- GET slash: the rendered template, with the last row and df.tail(100). -/
def home (df : List CsvRow) : HttpResp :=
  if df.isEmpty then HttpResp.htmlPage Option.none []
  else HttpResp.htmlPage df.getLast? (df.drop (df.length - 100))

/-- GET api latest: the single most recent row as JSON. -/
def api_latest (df : List CsvRow) : HttpResp :=
  if df.isEmpty then HttpResp.jsonObj Option.none
  else HttpResp.jsonObj df.getLast?

/-- GET api data: the whole loaded window as JSON. -/
def api_data (df : List CsvRow) : HttpResp :=
  if df.isEmpty then HttpResp.jsonList [] else HttpResp.jsonList df

/-
Lemmas about the dict model.
-/

theorem dictGet?_dictSet_self (d : Dict) (k : String) (v : PyVal) :
    dictGet? (dictSet d k v) k = some v := by
  induction d with
  | nil => simp [dictSet, dictGet?]
  | cons p rest ih =>
      obtain ⟨k1, v1⟩ := p
      by_cases h : k1 = k <;> simp [dictSet, dictGet?, h, ih]

theorem dictGet?_dictSet_ne (d : Dict) {k1 k : String} (v : PyVal) (h : k1 ≠ k) :
    dictGet? (dictSet d k1 v) k = dictGet? d k := by
  induction d with
  | nil => simp [dictSet, dictGet?, h]
  | cons p rest ih =>
      obtain ⟨k2, v2⟩ := p
      by_cases h2 : k2 = k1
      · subst h2
        simp [dictSet, dictGet?, h]
      · simp [dictSet, dictGet?, h2, ih]

theorem dictUpdate_cons (d : Dict) (p : String × PyVal) (e : Dict) :
    dictUpdate d (p :: e) = dictUpdate (dictSet d p.1 p.2) e := rfl

theorem dictGet?_dictUpdate_notMem (e : Dict) (d : Dict) (k : String)
    (h : k ∉ e.map Prod.fst) : dictGet? (dictUpdate d e) k = dictGet? d k := by
  induction e generalizing d with
  | nil => rfl
  | cons p rest ih =>
      simp only [List.map_cons, List.mem_cons] at h
      push_neg at h
      rw [dictUpdate_cons, ih _ h.2, dictGet?_dictSet_ne _ _ (Ne.symm h.1)]

theorem dictGet?_dictUpdate_mem (e : Dict) (d : Dict) (k : String) (v : PyVal)
    (hnd : (e.map Prod.fst).Nodup) (h : dictGet? e k = some v) :
    dictGet? (dictUpdate d e) k = some v := by
  induction e generalizing d with
  | nil => simp [dictGet?] at h
  | cons p rest ih =>
      obtain ⟨k1, v1⟩ := p
      simp only [List.map_cons, List.nodup_cons] at hnd
      rw [dictUpdate_cons]
      by_cases h1 : k1 = k
      · subst h1
        simp only [dictGet?, if_pos rfl] at h
        cases h
        rw [dictGet?_dictUpdate_notMem _ _ _ hnd.1, dictGet?_dictSet_self]
      · simp only [dictGet?, if_neg h1] at h
        exact ih _ hnd.2 h

theorem dictSet_ne_nil (d : Dict) (k : String) (v : PyVal) : dictSet d k v ≠ [] := by
  cases d with
  | nil => simp [dictSet]
  | cons p rest =>
      obtain ⟨k1, v1⟩ := p
      by_cases h : k1 = k <;> simp [dictSet, h]

theorem dictGet?_eq_none_of_not_mem (d : Dict) (k : String)
    (h : k ∉ d.map Prod.fst) : dictGet? d k = Option.none := by
  induction d with
  | nil => rfl
  | cons p rest ih =>
      simp only [List.map_cons, List.mem_cons] at h
      push_neg at h
      have h1 : ¬ p.1 = k := fun hh => h.1 hh.symm
      simp [dictGet?, h1, ih h.2]

theorem dictSet_eq_append (d : Dict) (k : String) (v : PyVal)
    (h : dictGet? d k = Option.none) : dictSet d k v = d ++ [(k, v)] := by
  induction d with
  | nil => simp [dictSet]
  | cons p rest ih =>
      obtain ⟨k1, v1⟩ := p
      by_cases h1 : k1 = k
      · simp [dictGet?, h1] at h
      · simp only [dictGet?, if_neg h1] at h
        simp [dictSet, h1, ih h]

theorem dictGet?_append (a b : Dict) (k : String) :
    dictGet? (a ++ b) k =
      (match dictGet? a k with
       | some v => some v
       | Option.none => dictGet? b k) := by
  induction a with
  | nil => simp [dictGet?]
  | cons p rest ih =>
      obtain ⟨k1, v1⟩ := p
      by_cases h : k1 = k <;> simp [dictGet?, h, ih]

theorem mem_of_dictGet? (d : Dict) (k : String) (v : PyVal)
    (h : dictGet? d k = some v) : (k, v) ∈ d := by
  induction d with
  | nil => simp [dictGet?] at h
  | cons p rest ih =>
      obtain ⟨k1, v1⟩ := p
      by_cases h1 : k1 = k
      · subst h1
        simp only [dictGet?, if_pos rfl] at h
        cases h
        exact List.mem_cons_self _ _
      · simp only [dictGet?, if_neg h1] at h
        exact List.mem_cons_of_mem _ (ih h)

theorem dictGet?_of_mem_nodup (d : Dict) (k : String) (v : PyVal)
    (hnd : (d.map Prod.fst).Nodup) (h : (k, v) ∈ d) : dictGet? d k = some v := by
  induction d with
  | nil => simp at h
  | cons p rest ih =>
      obtain ⟨k1, v1⟩ := p
      simp only [List.map_cons, List.nodup_cons] at hnd
      rcases List.mem_cons.mp h with heq | hmem
      · cases heq
        simp [dictGet?]
      · have hk1 : k1 ≠ k := by
          intro hk
          subst hk
          exact hnd.1 (List.mem_map_of_mem Prod.fst hmem)
        simp [dictGet?, hk1, ih hnd.2 hmem]

/-
C3: dashboard aggregation (src/dashboard/main.py, load_data).
-/

/-- C3 counterexample: with one 100-second row in each file and a far-future
row, load_data keeps both rows with the duplicate timestamp (no
deduplication happens) and also keeps the row beyond the current time, so
the output is not the deduplicated trailing 24-hour window the claim
states. -/
theorem load_data_claim_counterexample :
    ¬ (((load_data (some [⟨some 100, "a"⟩]) (some [⟨some 100, "b"⟩, ⟨some 999999, "c"⟩])
          1000).map CsvRow.ts).Nodup)
    ∧ (⟨some 999999, "c"⟩ : CsvRow) ∈
        load_data (some [⟨some 100, "a"⟩]) (some [⟨some 100, "b"⟩, ⟨some 999999, "c"⟩]) 1000
    ∧ (1000 : Int) < 999999 := by
  refine ⟨by decide, by decide, by decide⟩

/-- C3 amended: load_data merges the readable daily files, drops rows whose
timestamp fails to parse, sorts ascending by timestamp, and keeps exactly
the rows (with multiplicity, duplicates retained) whose timestamp is at
least now minus 24 hours; no upper bound is applied. -/
theorem load_data_merge_sort_window (yFile tFile : Option (List CsvRow)) (now : Int) :
    List.Sorted tsLe (load_data yFile tFile now)
    ∧ (load_data yFile tFile now).Perm
        (((loadFile yFile ++ loadFile tFile).flatten).filter
          (fun r => now - WINDOW_24H ≤ r.ts.getD 0)) := by
  by_cases hd : (loadFile yFile ++ loadFile tFile).isEmpty
  · have he : loadFile yFile ++ loadFile tFile = [] := List.isEmpty_iff.mp hd
    constructor
    · simp [load_data, hd]
    · simp [load_data, hd, he]
  · constructor
    · simp only [load_data, if_neg hd]
      exact List.Sorted.filter _ (List.sorted_insertionSort tsLe _)
    · simp only [load_data, if_neg hd]
      exact List.Perm.filter _ (List.perm_insertionSort tsLe _)

/-
C4: the three HTTP routes (src/dashboard/main.py).
-/

/-- C4 counterexample: on a two-row table, GET api latest returns the
single most recent row, not the last 100 rows, and GET slash returns a
rendered HTML page, not JSON. -/
theorem api_routes_claim_counterexample :
    api_latest [⟨some 1, "r1"⟩, ⟨some 2, "r2"⟩] = HttpResp.jsonObj (some ⟨some 2, "r2"⟩)
    ∧ api_latest [⟨some 1, "r1"⟩, ⟨some 2, "r2"⟩]
        ≠ HttpResp.jsonList [⟨some 1, "r1"⟩, ⟨some 2, "r2"⟩]
    ∧ (∀ o, home [⟨some 1, "r1"⟩, ⟨some 2, "r2"⟩] ≠ HttpResp.jsonObj o)
    ∧ (∀ l, home [⟨some 1, "r1"⟩, ⟨some 2, "r2"⟩] ≠ HttpResp.jsonList l) := by
  refine ⟨by decide, by decide, ?_, ?_⟩
  · intro o h
    simp [home] at h
  · intro l h
    simp [home] at h

/-- C4 amended: GET slash serves the HTML template carrying the most recent
row and the trailing df.tail(100) slice, GET api latest serves the single
most recent row as JSON, and GET api data serves the whole loaded window as
JSON; the tail slice is a suffix of the window of length at most 100. -/
theorem dashboard_routes (df : List CsvRow) :
    home df = HttpResp.htmlPage df.getLast? (df.drop (df.length - 100))
    ∧ api_latest df = HttpResp.jsonObj df.getLast?
    ∧ api_data df = HttpResp.jsonList df
    ∧ (df.drop (df.length - 100)).length ≤ 100
    ∧ (df.drop (df.length - 100)) <:+ df := by
  refine ⟨?_, ?_, ?_, ?_, List.drop_suffix _ _⟩
  · cases df with
    | nil => simp [home]
    | cons x xs => simp [home]
  · cases df with
    | nil => simp [api_latest]
    | cons x xs => simp [api_latest]
  · cases df with
    | nil => simp [api_data]
    | cons x xs => simp [api_data]
  · simp only [List.length_drop]
    omega

/-
C7: fatal exits of the backfill script.
-/

/-- C7: the backfill script exits with a non-zero status exactly when the
CSV path argument is missing; a missing input file and any unexpected
exception during processing are caught and reported as a printed message,
and the script still finishes with exit code 0. -/
theorem backfill_fatal_only_missing_arg (x y : String) (rest : List String)
    (e : PyErr) (rows : List RawRow) (short : List String)
    (hshort : short.length < 2) :
    (backfill_main short (.ok rows)).2 = 1
    ∧ (backfill_main short (.error e)).2 = 1
    ∧ (backfill_main (x :: y :: rest) (.error e)).2 = 0
    ∧ (backfill_main (x :: y :: rest) (.ok rows)).2 = 0
    ∧ (∃ m, BackfillEvent.printed m ∈ (backfill_main (x :: y :: rest) (.error e)).1) := by
  have hlong : ¬ (x :: y :: rest).length < 2 := by
    simp only [List.length_cons]
    omega
  have hrun : ∀ inp : Except PyErr (List RawRow),
      backfill_main (x :: y :: rest) inp
        = (process_log_file_events inp ++ [BackfillEvent.printed "Processing complete."], 0) := by
    intro inp
    unfold backfill_main
    rw [if_neg hlong]
  have hshort2 : ∀ inp : Except PyErr (List RawRow),
      backfill_main short inp
        = ([BackfillEvent.printed "Usage: python3 log_uploader.py <path/to/logfile.csv>"], 1) := by
    intro inp
    unfold backfill_main
    rw [if_pos hshort]
  refine ⟨by rw [hshort2], by rw [hshort2], by rw [hrun], by rw [hrun], ?_⟩
  cases e with
  | fileNotFound =>
      refine ⟨"Error: File not found. Please check the path.", ?_⟩
      rw [hrun]
      simp [process_log_file_events]
  | other m =>
      refine ⟨"An unexpected error occurred: " ++ m, ?_⟩
      rw [hrun]
      simp [process_log_file_events]

/-- C7 witness: the theorem applied at a concrete argv and error. -/
theorem backfill_fatal_only_missing_arg_witness :
    ([("prog" : String)].length < 2)
    ∧ ((backfill_main ["prog"] (.ok ([] : List RawRow))).2 = 1
       ∧ (backfill_main ["prog"] (.error PyErr.fileNotFound)).2 = 1
       ∧ (backfill_main ["prog", "log.csv"] (.error PyErr.fileNotFound)).2 = 0
       ∧ (backfill_main ["prog", "log.csv"] (.ok ([] : List RawRow))).2 = 0
       ∧ (∃ m, BackfillEvent.printed m ∈
            (backfill_main ["prog", "log.csv"] (.error PyErr.fileNotFound)).1)) :=
  ⟨by decide,
   backfill_fatal_only_missing_arg "prog" "log.csv" [] PyErr.fileNotFound [] ["prog"]
     (by decide)⟩

/-
C8: the MH-Z19 present flag is never reset (src/service/capture.py).
-/

theorem mhz19_run_absent (hws : List (Except String MhzResp)) :
    mhz19_run ⟨false⟩ hws
      = (⟨false⟩, hws.map (fun _ => ([("mhz19_present", PyVal.bool false)], false))) := by
  induction hws with
  | nil => rfl
  | cons hw rest ih => simp [mhz19_run, mhz19_read, ih]

/-- C8: once one mh_z19.read raises, the present flag becomes False, the
failure is returned as a string error field, and every later call returns
only the present False dict without attempting another hardware read. -/
theorem mhz19_read_permanently_disabled (s : MHZ19Sensor) (e : String)
    (h : s.present = true) :
    (mhz19_read s (.error e)).1.present = false
    ∧ (mhz19_read s (.error e)).2.1
        = [("mhz19_present", PyVal.bool true), ("mhz19_error", PyVal.str e)]
    ∧ ∀ hws, mhz19_run (mhz19_read s (.error e)).1 hws
        = (⟨false⟩, hws.map (fun _ => ([("mhz19_present", PyVal.bool false)], false))) := by
  have hstep : mhz19_read s (.error e)
      = (⟨false⟩, [("mhz19_present", PyVal.bool true), ("mhz19_error", PyVal.str e)], true) := by
    simp [mhz19_read, h]
  refine ⟨by rw [hstep], by rw [hstep], ?_⟩
  intro hws
  rw [hstep]
  exact mhz19_run_absent hws

/-- C8 witness: the theorem applied to a live sensor and a concrete raised
exception. -/
theorem mhz19_read_permanently_disabled_witness :
    ((⟨true⟩ : MHZ19Sensor).present = true)
    ∧ ((mhz19_read ⟨true⟩ (.error "read timeout")).1.present = false
       ∧ (mhz19_read ⟨true⟩ (.error "read timeout")).2.1
           = [("mhz19_present", PyVal.bool true), ("mhz19_error", PyVal.str "read timeout")]
       ∧ ∀ hws, mhz19_run (mhz19_read ⟨true⟩ (.error "read timeout")).1 hws
           = (⟨false⟩, hws.map (fun _ => ([("mhz19_present", PyVal.bool false)], false)))) :=
  ⟨by decide, mhz19_read_permanently_disabled ⟨true⟩ "read timeout" (by decide)⟩

/-
C10: read_mhz19 of the sensors capture script.
-/

/-- C10: read_mhz19 always returns a dict carrying co2_ppm and co2_source;
whenever the underlying read fails, the mock fallback fires: co2_source is
mock, an error key is present, and co2_ppm is 450 plus ten times the minute
modulo 30, which lies in the closed range 450 to 740. -/
theorem read_mhz19_total_and_mock (hw : Except String MhzResp) (minute : ℕ)
    (h : hwFails hw = true) :
    (∀ hw2 m2, (dictGet? (read_mhz19 hw2 m2) "co2_ppm").isSome = true
       ∧ (dictGet? (read_mhz19 hw2 m2) "co2_source").isSome = true)
    ∧ dictGet? (read_mhz19 hw minute) "co2_source" = some (PyVal.str "mock")
    ∧ (∃ m, dictGet? (read_mhz19 hw minute) "error" = some (PyVal.str m))
    ∧ dictGet? (read_mhz19 hw minute) "co2_ppm"
        = some (PyVal.int (450 + ((minute % 30 : ℕ) : Int) * 10))
    ∧ 450 ≤ 450 + ((minute % 30 : ℕ) : Int) * 10
    ∧ 450 + ((minute % 30 : ℕ) : Int) * 10 ≤ 740 := by
  have hbound : (minute % 30 : ℕ) < 30 := Nat.mod_lt _ (by omega)
  refine ⟨?_, ?_, ?_, ?_, by omega, ?_⟩
  · intro hw2 m2
    cases hw2 with
    | ok r =>
        cases r with
        | co2Dict v => simp [read_mhz19, dictGet?]
        | other => simp [read_mhz19, mhz19Fallback, USE_CO2_MOCK_ON_FAIL, dictGet?]
    | error e => simp [read_mhz19, mhz19Fallback, USE_CO2_MOCK_ON_FAIL, dictGet?]
  · cases hw with
    | ok r =>
        cases r with
        | co2Dict v => simp [hwFails] at h
        | other => simp [read_mhz19, mhz19Fallback, USE_CO2_MOCK_ON_FAIL, dictGet?]
    | error e => simp [read_mhz19, mhz19Fallback, USE_CO2_MOCK_ON_FAIL, dictGet?]
  · cases hw with
    | ok r =>
        cases r with
        | co2Dict v => simp [hwFails] at h
        | other =>
            exact ⟨"Unexpected mh_z19 response",
              by simp [read_mhz19, mhz19Fallback, USE_CO2_MOCK_ON_FAIL, dictGet?]⟩
    | error e =>
        exact ⟨e, by simp [read_mhz19, mhz19Fallback, USE_CO2_MOCK_ON_FAIL, dictGet?]⟩
  · cases hw with
    | ok r =>
        cases r with
        | co2Dict v => simp [hwFails] at h
        | other => simp [read_mhz19, mhz19Fallback, USE_CO2_MOCK_ON_FAIL, dictGet?]
    | error e => simp [read_mhz19, mhz19Fallback, USE_CO2_MOCK_ON_FAIL, dictGet?]
  · push_cast
    omega

/-- C10 witness: the theorem applied to a concrete raised read at minute 59. -/
theorem read_mhz19_total_and_mock_witness :
    (hwFails (.error "no response") = true)
    ∧ ((∀ hw2 m2, (dictGet? (read_mhz19 hw2 m2) "co2_ppm").isSome = true
         ∧ (dictGet? (read_mhz19 hw2 m2) "co2_source").isSome = true)
       ∧ dictGet? (read_mhz19 (.error "no response") 59) "co2_source"
           = some (PyVal.str "mock")
       ∧ (∃ m, dictGet? (read_mhz19 (.error "no response") 59) "error"
           = some (PyVal.str m))
       ∧ dictGet? (read_mhz19 (.error "no response") 59) "co2_ppm"
           = some (PyVal.int (450 + ((59 % 30 : ℕ) : Int) * 10))
       ∧ 450 ≤ 450 + ((59 % 30 : ℕ) : Int) * 10
       ∧ 450 + ((59 % 30 : ℕ) : Int) * 10 ≤ 740) :=
  ⟨by decide, read_mhz19_total_and_mock (.error "no response") 59 (by decide)⟩

/-
Lemmas about the row conversion and the batching fold (C1, C9).
-/

theorem processRow_isSome_of_valid (r : RawRow) (h : rowValid r = true) :
    ∀ acc : Dict, ∃ d, processRow r acc = some d := by
  induction r with
  | nil => exact fun acc => ⟨acc, rfl⟩
  | cons p rest ih =>
      rw [rowValid, List.all_cons, Bool.and_eq_true] at h
      obtain ⟨h1, h2⟩ := h
      have ihr : ∀ acc : Dict, ∃ d, processRow rest acc = some d := ih h2
      intro acc
      obtain ⟨k?, v⟩ := p
      cases k? with
      | none => simpa [processRow] using ihr acc
      | some k =>
          by_cases hp : pyEndsWith k "_present" = true
          · simpa [processRow, hp] using ihr acc
          · rw [Bool.not_eq_true] at hp
            by_cases ht : k = "timestamp"
            · simpa [processRow, hp, ht] using ihr _
            · simp only [cellValid, hp, ht, if_false, Bool.false_eq_true, if_neg] at h1
              cases v with
              | none => simpa [processRow, hp, ht] using ihr _
              | some s =>
                  by_cases hstrip : pyStrip s = ""
                  · simpa [processRow, hp, ht, hstrip] using ihr _
                  · have hsome : (pyFloat? s).isSome = true := by
                      have h1b : (decide (pyStrip s = "") || (pyFloat? s).isSome) = true := by
                        simpa using h1
                      rw [Bool.or_eq_true] at h1b
                      rcases h1b with hc | hc
                      · exact absurd (by simpa using hc) hstrip
                      · exact hc
                    obtain ⟨q, hq⟩ := Option.isSome_iff_exists.mp hsome
                    simpa [processRow, hp, ht, hstrip, hq] using ihr _

theorem processRow_acc_ne_nil (r : RawRow) :
    ∀ acc d, acc ≠ [] → processRow r acc = some d → d ≠ [] := by
  induction r with
  | nil =>
      intro acc d ha h
      simp only [processRow, Option.some.injEq] at h
      rw [← h]
      exact ha
  | cons p rest ih =>
      intro acc d ha h
      obtain ⟨k?, v⟩ := p
      cases k? with
      | none => exact ih acc d ha (by simpa [processRow] using h)
      | some k =>
          by_cases hp : pyEndsWith k "_present" = true
          · exact ih acc d ha (by simpa [processRow, hp] using h)
          · rw [Bool.not_eq_true] at hp
            by_cases ht : k = "timestamp"
            · exact ih _ d (dictSet_ne_nil _ _ _) (by simpa [processRow, hp, ht] using h)
            · cases v with
              | none => exact ih _ d (dictSet_ne_nil _ _ _) (by simpa [processRow, hp, ht] using h)
              | some s =>
                  by_cases hstrip : pyStrip s = ""
                  · exact ih _ d (dictSet_ne_nil _ _ _)
                      (by simpa [processRow, hp, ht, hstrip] using h)
                  · cases hq : pyFloat? s with
                    | none => simp [processRow, hp, ht, hstrip, hq] at h
                    | some q =>
                        exact ih _ d (dictSet_ne_nil _ _ _)
                          (by simpa [processRow, hp, ht, hstrip, hq] using h)

theorem processRow_kept_ne_nil (r : RawRow) (hk : rowKept r = true) :
    ∀ acc d, processRow r acc = some d → d ≠ [] := by
  induction r with
  | nil => simp [rowKept] at hk
  | cons p rest ih =>
      intro acc d h
      obtain ⟨k?, v⟩ := p
      rw [rowKept, List.any_cons] at hk
      cases k? with
      | none =>
          have hk2 : rowKept rest = true := by simpa [rowKept] using hk
          exact ih hk2 _ d (by simpa [processRow] using h)
      | some k =>
          by_cases hp : pyEndsWith k "_present" = true
          · have hk2 : rowKept rest = true := by simpa [rowKept, hp] using hk
            exact ih hk2 _ d (by simpa [processRow, hp] using h)
          · rw [Bool.not_eq_true] at hp
            by_cases ht : k = "timestamp"
            · exact processRow_acc_ne_nil rest _ d (dictSet_ne_nil _ _ _)
                (by simpa [processRow, hp, ht] using h)
            · cases v with
              | none =>
                  exact processRow_acc_ne_nil rest _ d (dictSet_ne_nil _ _ _)
                    (by simpa [processRow, hp, ht] using h)
              | some s =>
                  by_cases hstrip : pyStrip s = ""
                  · exact processRow_acc_ne_nil rest _ d (dictSet_ne_nil _ _ _)
                      (by simpa [processRow, hp, ht, hstrip] using h)
                  · cases hq : pyFloat? s with
                    | none => simp [processRow, hp, ht, hstrip, hq] at h
                    | some q =>
                        exact processRow_acc_ne_nil rest _ d (dictSet_ne_nil _ _ _)
                          (by simpa [processRow, hp, ht, hstrip, hq] using h)

theorem length_filterMap_processRow (rows : List RawRow)
    (H : ∀ r ∈ rows, (processRow r []).isSome = true) :
    (rows.filterMap (fun r => processRow r [])).length = rows.length := by
  induction rows with
  | nil => rfl
  | cons r rest ih =>
      obtain ⟨d, hd⟩ := Option.isSome_iff_exists.mp (H r (List.mem_cons_self _ _))
      rw [List.filterMap_cons, hd]
      simp [ih (fun r2 h2 => H r2 (List.mem_cons_of_mem _ h2))]

theorem batchFold_spec (rows : List RawRow)
    (H : ∀ r ∈ rows, ∃ d, processRow r [] = some d ∧ d ≠ []) :
    ∀ batches cur, cur.length < BATCH_SIZE →
      ((rows.foldl batchStep (batches, cur)).1.flatten
          ++ (rows.foldl batchStep (batches, cur)).2
        = batches.flatten ++ cur ++ rows.filterMap (fun r => processRow r []))
      ∧ (rows.foldl batchStep (batches, cur)).1.length
          = batches.length + (cur.length + rows.length) / BATCH_SIZE
      ∧ (rows.foldl batchStep (batches, cur)).2.length
          = (cur.length + rows.length) % BATCH_SIZE
      ∧ (∀ b ∈ (rows.foldl batchStep (batches, cur)).1,
          b ∈ batches ∨ b.length = BATCH_SIZE) := by
  induction rows with
  | nil =>
      intro batches cur hcur
      refine ⟨by simp, ?_, ?_, fun b hb => Or.inl hb⟩
      · simp [Nat.div_eq_of_lt (by simpa using hcur)]
      · simp [Nat.mod_eq_of_lt (by simpa using hcur)]
  | cons r rest ih =>
      intro batches cur hcur
      obtain ⟨d, hd, hdne⟩ := H r (List.mem_cons_self _ _)
      have hrest : ∀ r2 ∈ rest, ∃ d2, processRow r2 [] = some d2 ∧ d2 ≠ [] :=
        fun r2 hr2 => H r2 (List.mem_cons_of_mem _ hr2)
      have hdE : d.isEmpty = false := by
        cases d with
        | nil => exact absurd rfl hdne
        | cons a l => rfl
      have hstep : batchStep (batches, cur) r
          = if BATCH_SIZE ≤ (cur ++ [d]).length then (batches ++ [cur ++ [d]], [])
            else (batches, cur ++ [d]) := by
        simp [batchStep, hd, hdE]
      have hfilter : (r :: rest).filterMap (fun r2 => processRow r2 [])
          = d :: rest.filterMap (fun r2 => processRow r2 []) := by
        rw [List.filterMap_cons, hd]
      rw [List.foldl_cons, hstep]
      by_cases hfull : BATCH_SIZE ≤ (cur ++ [d]).length
      · rw [if_pos hfull]
        have hcl : cur.length + 1 = BATCH_SIZE := by
          simp only [List.length_append, List.length_cons, List.length_nil] at hfull
          omega
        obtain ⟨hj, hl1, hl2, hmem⟩ :=
          ih hrest (batches ++ [cur ++ [d]]) [] (by simp [BATCH_SIZE])
        refine ⟨?_, ?_, ?_, ?_⟩
        · rw [hj, hfilter]
          simp [List.append_assoc]
        · rw [hl1]
          simp only [List.length_append, List.length_cons, List.length_nil, BATCH_SIZE] at hcl ⊢
          omega
        · rw [hl2]
          simp only [List.length_append, List.length_cons, List.length_nil, BATCH_SIZE] at hcl ⊢
          omega
        · intro b hb
          rcases hmem b hb with h | h
          · rcases List.mem_append.mp h with h2 | h2
            · exact Or.inl h2
            · right
              have hb2 : b = cur ++ [d] := by simpa using h2
              rw [hb2]
              simp only [List.length_append, List.length_cons, List.length_nil]
              omega
          · exact Or.inr h
      · rw [if_neg hfull]
        have hcl : cur.length + 1 < BATCH_SIZE := by
          simp only [List.length_append, List.length_cons, List.length_nil] at hfull
          omega
        obtain ⟨hj, hl1, hl2, hmem⟩ :=
          ih hrest batches (cur ++ [d]) (by simpa using hcl)
        refine ⟨?_, ?_, ?_, hmem⟩
        · rw [hj, hfilter]
          simp [List.append_assoc]
        · rw [hl1]
          simp only [List.length_append, List.length_cons, List.length_nil, BATCH_SIZE] at hcl ⊢
          omega
        · rw [hl2]
          simp only [List.length_append, List.length_cons, List.length_nil, BATCH_SIZE] at hcl ⊢
          omega

/-
C1: batching of the backfill run.
-/

/-- C1 counterexample: a one-row CSV whose only column ends in _present is
valid in the sense of the claim (it has no convertible cells at all), yet
the run sends zero batches instead of the claimed one: the processed record
is empty, so the row never enters a batch. -/
theorem process_log_file_batch_claim_counterexample :
    rowValid [(some "x_present", some "1")] = true
    ∧ (process_log_file [[(some "x_present", some "1")]]).length
        ≠ (1 + BATCH_SIZE - 1) / BATCH_SIZE := by
  exact ⟨by decide, by decide⟩

/-- C1 amended: over a CSV file whose N data rows are all valid and each
keep at least one named column that does not end in _present, the run sends
exactly the ceiling of N over BATCH_SIZE batches, each of size at most
BATCH_SIZE, and their concatenation is the converted rows in original file
order, one record per row. -/
theorem process_log_file_batching (rows : List RawRow)
    (hval : ∀ r ∈ rows, rowValid r = true)
    (hkept : ∀ r ∈ rows, rowKept r = true) :
    (process_log_file rows).length = (rows.length + BATCH_SIZE - 1) / BATCH_SIZE
    ∧ (∀ b ∈ process_log_file rows, b.length ≤ BATCH_SIZE)
    ∧ (process_log_file rows).flatten = rows.filterMap (fun r => processRow r [])
    ∧ (rows.filterMap (fun r => processRow r [])).length = rows.length := by
  have H : ∀ r ∈ rows, ∃ d, processRow r [] = some d ∧ d ≠ [] := by
    intro r hr
    obtain ⟨d, hd⟩ := processRow_isSome_of_valid r (hval r hr) []
    exact ⟨d, hd, processRow_kept_ne_nil r (hkept r hr) [] d hd⟩
  obtain ⟨hj, hl1, hl2, hmem⟩ := batchFold_spec rows H [] [] (by simp [BATCH_SIZE])
  have hlen4 : (rows.filterMap (fun r => processRow r [])).length = rows.length := by
    apply length_filterMap_processRow
    intro r hr
    obtain ⟨d, hd, _⟩ := H r hr
    simp [hd]
  simp only [List.flatten_nil, List.nil_append, List.length_nil, Nat.zero_add] at hj hl1 hl2
  simp only [process_log_file]
  by_cases hemp : (rows.foldl batchStep ([], [])).2.isEmpty
  · have h2nil : (rows.foldl batchStep ([], [])).2 = [] := List.isEmpty_iff.mp hemp
    rw [if_pos hemp]
    refine ⟨?_, ?_, ?_, hlen4⟩
    · have hmod : rows.length % BATCH_SIZE = 0 := by
        rw [← hl2, h2nil]
        rfl
      simp only [BATCH_SIZE] at hl1 hmod ⊢
      omega
    · intro b hb
      rcases hmem b hb with h | h
      · simp at h
      · rw [h]
    · rw [h2nil, List.append_nil] at hj
      exact hj
  · have h2ne : (rows.foldl batchStep ([], [])).2 ≠ [] := fun hh => hemp (by simp [hh])
    have hpos : 0 < (rows.foldl batchStep ([], [])).2.length := List.length_pos.mpr h2ne
    rw [if_neg hemp]
    refine ⟨?_, ?_, ?_, hlen4⟩
    · simp only [List.length_append, List.length_cons, List.length_nil]
      simp only [BATCH_SIZE] at hl1 hl2 hpos ⊢
      omega
    · intro b hb
      rcases List.mem_append.mp hb with h | h
      · rcases hmem b h with h2 | h2
        · simp at h2
        · rw [h2]
      · have hb2 : b = (rows.foldl batchStep ([], [])).2 := by simpa using h
        rw [hb2]
        simp only [BATCH_SIZE] at hl2 ⊢
        omega
    · rw [List.flatten_append]
      simpa using hj

/-- C1 witness: the amended theorem applied to a concrete two-row file. -/
theorem process_log_file_batching_witness :
    (∀ r ∈ ([[(some "timestamp", some "t0")], [(some "timestamp", some "t1")]] : List RawRow),
        rowValid r = true)
    ∧ (∀ r ∈ ([[(some "timestamp", some "t0")], [(some "timestamp", some "t1")]] : List RawRow),
        rowKept r = true)
    ∧ ((process_log_file [[(some "timestamp", some "t0")], [(some "timestamp", some "t1")]]).length
          = (([[(some "timestamp", some "t0")], [(some "timestamp", some "t1")]] : List RawRow).length
              + BATCH_SIZE - 1) / BATCH_SIZE
       ∧ (∀ b ∈ process_log_file [[(some "timestamp", some "t0")], [(some "timestamp", some "t1")]],
            b.length ≤ BATCH_SIZE)
       ∧ (process_log_file [[(some "timestamp", some "t0")], [(some "timestamp", some "t1")]]).flatten
          = ([[(some "timestamp", some "t0")], [(some "timestamp", some "t1")]] : List RawRow).filterMap
              (fun r => processRow r [])
       ∧ (([[(some "timestamp", some "t0")], [(some "timestamp", some "t1")]] : List RawRow).filterMap
              (fun r => processRow r [])).length
          = ([[(some "timestamp", some "t0")], [(some "timestamp", some "t1")]] : List RawRow).length) :=
  ⟨by decide, by decide,
   process_log_file_batching
     [[(some "timestamp", some "t0")], [(some "timestamp", some "t1")]]
     (by decide) (by decide)⟩

/-
C9: no empty POST.
-/

theorem batchFold_nonempty (rows : List RawRow) :
    ∀ batches cur, (∀ b ∈ batches, b ≠ []) →
      ∀ b ∈ (rows.foldl batchStep (batches, cur)).1, b ≠ [] := by
  induction rows with
  | nil => exact fun batches cur hb b hmem => hb b hmem
  | cons r rest ih =>
      intro batches cur hb
      rw [List.foldl_cons]
      cases hp : processRow r [] with
      | none =>
          have hs : batchStep (batches, cur) r = (batches, cur) := by
            simp [batchStep, hp]
          rw [hs]
          exact ih _ _ hb
      | some d =>
          by_cases hde : d.isEmpty
          · have hs : batchStep (batches, cur) r = (batches, cur) := by
              simp [batchStep, hp, hde]
            rw [hs]
            exact ih _ _ hb
          · by_cases hfull : BATCH_SIZE ≤ cur.length + 1
            · have hs : batchStep (batches, cur) r = (batches ++ [cur ++ [d]], []) := by
                simp [batchStep, hp, hde, hfull]
              rw [hs]
              refine ih _ _ ?_
              intro b hbm
              rcases List.mem_append.mp hbm with h | h
              · exact hb b h
              · have hb2 : b = cur ++ [d] := by simpa using h
                rw [hb2]
                simp
            · have hs : batchStep (batches, cur) r = (batches, cur ++ [d]) := by
                simp [batchStep, hp, hde, hfull]
              rw [hs]
              exact ih _ _ hb

theorem process_log_file_batches_ne_nil (rows : List RawRow) :
    ∀ b ∈ process_log_file rows, b ≠ [] := by
  intro b hb
  simp only [process_log_file] at hb
  by_cases hemp : (rows.foldl batchStep ([], [])).2.isEmpty
  · rw [if_pos hemp] at hb
    exact batchFold_nonempty rows [] [] (by simp) b hb
  · rw [if_neg hemp] at hb
    rcases List.mem_append.mp hb with h | h
    · exact batchFold_nonempty rows [] [] (by simp) b h
    · have hb2 : b = (rows.foldl batchStep ([], [])).2 := by simpa using h
      rw [hb2]
      exact fun hh => hemp (by simp [hh])

/-- C9: send_batch_to_firebase on an empty batch only warns and performs no
POST, and in a whole backfill run every POST carries a non-empty batch; the
batching logic never even reaches the empty-batch warning. -/
theorem send_batch_empty_guard (rows : List RawRow) (b : List Dict)
    (hpost : FbEvent.post b ∈ backfillPosts rows) :
    b ≠ []
    ∧ send_batch_to_firebase [] = [FbEvent.warnEmpty]
    ∧ FbEvent.warnEmpty ∉ backfillPosts rows := by
  refine ⟨?_, rfl, ?_⟩
  · rw [backfillPosts] at hpost
    rcases List.mem_flatMap.mp hpost with ⟨batch, hbatch, hmem⟩
    by_cases he : batch.isEmpty
    · simp [send_batch_to_firebase, he] at hmem
    · simp only [send_batch_to_firebase, if_neg he, List.mem_singleton,
        FbEvent.post.injEq] at hmem
      rw [hmem]
      exact fun hh => he (by simp [hh])
  · intro hwarn
    rcases List.mem_flatMap.mp (by rwa [backfillPosts] at hwarn) with ⟨batch, hbatch, hmem⟩
    by_cases he : batch.isEmpty
    · exact process_log_file_batches_ne_nil rows batch hbatch (List.isEmpty_iff.mp he)
    · simp [send_batch_to_firebase, he] at hmem

/-- C9 witness: a one-row run issues exactly one POST, whose batch is
non-empty. -/
theorem send_batch_empty_guard_witness :
    (FbEvent.post [[("timestamp", PyVal.str "t0")]]
        ∈ backfillPosts [[(some "timestamp", some "t0")]])
    ∧ (([[("timestamp", PyVal.str "t0")]] : List Dict) ≠ []
       ∧ send_batch_to_firebase [] = [FbEvent.warnEmpty]
       ∧ FbEvent.warnEmpty ∉ backfillPosts [[(some "timestamp", some "t0")]]) :=
  ⟨by decide,
   send_batch_empty_guard [[(some "timestamp", some "t0")]]
     [[("timestamp", PyVal.str "t0")]] (by decide)⟩

/-
C2: per-sensor fault isolation in the capture loop.
-/

theorem cycleFold_get_notWritten (sensors : List SensorRun) (k : String) :
    ∀ acc : Dict × List String, (∀ s ∈ sensors, k ∉ writtenKeys s) →
      dictGet? (sensors.foldl cycleStep acc).1 k = dictGet? acc.1 k := by
  induction sensors with
  | nil => exact fun acc _ => rfl
  | cons s rest ih =>
      intro acc h
      have hs := h s (List.mem_cons_self _ _)
      have hrest : ∀ s2 ∈ rest, k ∉ writtenKeys s2 :=
        fun s2 h2 => h s2 (List.mem_cons_of_mem _ h2)
      rw [List.foldl_cons, ih _ hrest]
      obtain ⟨nm, res⟩ := s
      cases res with
      | ok d =>
          simp only [writtenKeys] at hs
          exact dictGet?_dictUpdate_notMem d acc.1 k hs
      | error e =>
          simp only [writtenKeys, List.mem_singleton] at hs
          exact dictGet?_dictSet_ne _ _ (Ne.symm hs)

theorem runCycle_get_of_write_split (ts : String) (l1 : List SensorRun) (s : SensorRun)
    (l2 : List SensorRun) (k : String) (v : PyVal)
    (hstep : ∀ acc : Dict × List String, dictGet? (cycleStep acc s).1 k = some v)
    (hl2 : ∀ s2 ∈ l2, k ∉ writtenKeys s2) (hke : k ≠ "errors") :
    dictGet? (runCycle ts (l1 ++ s :: l2)).1 k = some v := by
  have hfold : dictGet?
      (((l1 ++ s :: l2).foldl cycleStep ([("timestamp", PyVal.str ts)], [])).1) k = some v := by
    rw [List.foldl_append, List.foldl_cons, cycleFold_get_notWritten l2 k _ hl2]
    exact hstep _
  simp only [runCycle]
  by_cases he : ((l1 ++ s :: l2).foldl cycleStep ([("timestamp", PyVal.str ts)], [])).2.isEmpty
  · rw [if_pos he]
    exact hfold
  · rw [if_neg he]
    rw [dictGet?_dictSet_ne _ _ (Ne.symm hke)]
    exact hfold

/-- C2: in one capture iteration, when sensor i fails, either by raising or
by returning an error field, the dict returned by any other sensor j is
still merged into the row: every binding of j that no later sensor
overwrites is present in the final readings, and the failure of i is
recorded as a string under a field ending in _error. The loop never
aborts: this holds for arbitrary outcomes of all other sensors. -/
theorem sensor_fault_isolation (ts : String) (sensors : List SensorRun)
    (i j : ℕ) (hi : i < sensors.length) (hj : j < sensors.length) (_hij : i ≠ j)
    (ek : String) (hfail : failsWith sensors[i] ek) (heke : ek ≠ "errors")
    (helater : ∀ m (hm : m < sensors.length), i < m → ek ∉ writtenKeys sensors[m])
    (d : Dict) (hok : sensors[j].result = .ok d) (hnd : (d.map Prod.fst).Nodup)
    (k : String) (v : PyVal) (hkv : dictGet? d k = some v) (hke : k ≠ "errors")
    (hlater : ∀ m (hm : m < sensors.length), j < m → k ∉ writtenKeys sensors[m]) :
    dictGet? (runCycle ts sensors).1 k = some v
    ∧ ∃ msg, dictGet? (runCycle ts sensors).1 ek = some (PyVal.str msg) := by
  have hsplit : ∀ (idx : ℕ) (hidx : idx < sensors.length),
      sensors = sensors.take idx ++ sensors[idx] :: sensors.drop (idx + 1) := by
    intro idx hidx
    conv_lhs => rw [← List.take_append_drop idx sensors]
    rw [List.getElem_cons_drop]
  have hdropw : ∀ (idx : ℕ) (hidx : idx < sensors.length) (key : String),
      (∀ m (hm : m < sensors.length), idx < m → key ∉ writtenKeys sensors[m]) →
      ∀ s2 ∈ sensors.drop (idx + 1), key ∉ writtenKeys s2 := by
    intro idx hidx key hall s2 hs2
    rw [List.mem_iff_getElem] at hs2
    obtain ⟨n, hn, hget⟩ := hs2
    have hn2 : idx + 1 + n < sensors.length := by
      rw [List.length_drop] at hn
      omega
    have hsg : sensors[idx + 1 + n] = s2 := by
      rw [← hget, List.getElem_drop]
    rw [← hsg]
    exact hall (idx + 1 + n) hn2 (by omega)
  constructor
  · rw [hsplit j hj]
    apply runCycle_get_of_write_split
    · intro acc
      simp only [cycleStep, hok]
      exact dictGet?_dictUpdate_mem d acc.1 k v hnd hkv
    · exact hdropw j hj k hlater
    · exact hke
  · rcases hfail with ⟨e, herr, hekdef⟩ | ⟨d2, m, hok2, hnd2, hm, _⟩
    · obtain ⟨nm, hnm⟩ : ∃ nm, sensors[i].name = nm := ⟨_, rfl⟩
      rw [hnm] at hekdef
      refine ⟨nm ++ " failed catastrophically: " ++ e, ?_⟩
      rw [hsplit i hi]
      apply runCycle_get_of_write_split
      · intro acc
        simp only [cycleStep, herr, hnm]
        rw [hekdef]
        exact dictGet?_dictSet_self _ _ _
      · exact hdropw i hi ek helater
      · exact heke
    · refine ⟨m, ?_⟩
      rw [hsplit i hi]
      apply runCycle_get_of_write_split
      · intro acc
        simp only [cycleStep, hok2]
        exact dictGet?_dictUpdate_mem d2 acc.1 ek (PyVal.str m) hnd2 hm
      · exact hdropw i hi ek helater
      · exact heke

/-- C2 witness: a raising MH-Z19 read next to a healthy BMP180 read; the
BMP180 pressure binding survives and the raised error is recorded. -/
theorem sensor_fault_isolation_witness :
    ((0 : ℕ) < ([⟨"MHZ19Sensor", .error "read timeout"⟩,
        ⟨"BMP180Sensor", .ok [("bmp180_present", PyVal.bool true),
          ("pressure_hPa", PyVal.str "1012.5")]⟩] : List SensorRun).length)
    ∧ ((1 : ℕ) < ([⟨"MHZ19Sensor", .error "read timeout"⟩,
        ⟨"BMP180Sensor", .ok [("bmp180_present", PyVal.bool true),
          ("pressure_hPa", PyVal.str "1012.5")]⟩] : List SensorRun).length)
    ∧ (0 : ℕ) ≠ 1
    ∧ (dictGet? (runCycle "2024-01-01T00:00:00"
          [⟨"MHZ19Sensor", .error "read timeout"⟩,
           ⟨"BMP180Sensor", .ok [("bmp180_present", PyVal.bool true),
             ("pressure_hPa", PyVal.str "1012.5")]⟩]).1 "pressure_hPa"
          = some (PyVal.str "1012.5")
       ∧ ∃ msg, dictGet? (runCycle "2024-01-01T00:00:00"
          [⟨"MHZ19Sensor", .error "read timeout"⟩,
           ⟨"BMP180Sensor", .ok [("bmp180_present", PyVal.bool true),
             ("pressure_hPa", PyVal.str "1012.5")]⟩]).1
            "MHZ19Sensor_catastrophic_error" = some (PyVal.str msg)) :=
  ⟨by decide, by decide, by decide,
   sensor_fault_isolation "2024-01-01T00:00:00"
     [⟨"MHZ19Sensor", .error "read timeout"⟩,
      ⟨"BMP180Sensor", .ok [("bmp180_present", PyVal.bool true),
        ("pressure_hPa", PyVal.str "1012.5")]⟩]
     0 1 (by decide) (by decide) (by decide)
     "MHZ19Sensor_catastrophic_error"
     (Or.inl ⟨"read timeout", rfl, rfl⟩)
     (by decide) (by decide)
     [("bmp180_present", PyVal.bool true), ("pressure_hPa", PyVal.str "1012.5")]
     rfl (by decide)
     "pressure_hPa" (PyVal.str "1012.5") (by decide) (by decide) (by decide)⟩

/-
C6: placeholder rendering of missing values.
-/

/-- C6 counterexample: a truthy string that float() cannot coerce makes the
f-string in show_summary raise; the broad except catches it and the frame
is abandoned, so no placeholder is rendered and the formatting is not the
total placeholder function the claim states. -/
theorem show_summary_claim_counterexample :
    show_summary true (PyVal.str "abc") PyVal.none PyVal.none
      = OledOutcome.aborted "Unknown format code f for object of type str"
    ∧ ∀ l1 l2, show_summary true (PyVal.str "abc") PyVal.none PyVal.none
        ≠ OledOutcome.rendered l1 l2 := by
  have h1 : show_summary true (PyVal.str "abc") PyVal.none PyVal.none
      = OledOutcome.aborted "Unknown format code f for object of type str" := by decide
  refine ⟨h1, ?_⟩
  intro l1 l2 hcontra
  rw [h1] at hcontra
  simp at hcontra

/-- C6 amended: the console helper renders the placeholder with its unit
for None, the empty string, and every non-coercible string, and is total;
format_console renders placeholders for a fully missing row; show_summary
renders bare placeholders for falsy inputs and never propagates an
exception, but a truthy non-numeric string aborts that display frame
instead of rendering a placeholder. -/
theorem formatting_placeholder_spec (u s : String) (hs : pyFloat? s = Option.none) :
    fmt_num PyVal.none u = "---" ++ u
    ∧ fmt_num (PyVal.str "") u = "---" ++ u
    ∧ fmt_num (PyVal.str s) u = "---" ++ u
    ∧ format_console "t" [] PyVal.none PyVal.none PyVal.none PyVal.none ""
        = "t | T=---°C P=---hPa Alt=---m RH=---% Dew=---°C CO₂=---ppm [None]"
    ∧ show_summary true PyVal.none PyVal.none PyVal.none
        = OledOutcome.rendered "---     ---" "CO2: ---ppm"
    ∧ show_summary true (PyVal.str "") (PyVal.str "") (PyVal.str "")
        = OledOutcome.rendered "---     ---" "CO2: ---ppm" := by
  refine ⟨rfl, by simp [fmt_num], ?_, by decide, by decide, by decide⟩
  by_cases he : s = ""
  · simp [fmt_num, he]
  · simp [fmt_num, he, hs]

/-- C6 witness: the amended theorem at the non-coercible string abc. -/
theorem formatting_placeholder_spec_witness :
    (pyFloat? "abc" = Option.none)
    ∧ (fmt_num PyVal.none "ppm" = "---" ++ "ppm"
       ∧ fmt_num (PyVal.str "") "ppm" = "---" ++ "ppm"
       ∧ fmt_num (PyVal.str "abc") "ppm" = "---" ++ "ppm"
       ∧ format_console "t" [] PyVal.none PyVal.none PyVal.none PyVal.none ""
           = "t | T=---°C P=---hPa Alt=---m RH=---% Dew=---°C CO₂=---ppm [None]"
       ∧ show_summary true PyVal.none PyVal.none PyVal.none
           = OledOutcome.rendered "---     ---" "CO2: ---ppm"
       ∧ show_summary true (PyVal.str "") (PyVal.str "") (PyVal.str "")
           = OledOutcome.rendered "---     ---" "CO2: ---ppm") :=
  ⟨by decide, formatting_placeholder_spec "ppm" "abc" (by decide)⟩

/-
C5: CSV write-then-read roundtrip (DataLogger.log_csv, then the row
conversion of process_log_file).
-/

theorem dedupAppend_mem (l : List String) :
    ∀ acc x, x ∈ dedupAppend acc l ↔ x ∈ acc ∨ x ∈ l := by
  induction l with
  | nil => intro acc x; simp [dedupAppend]
  | cons f rest ih =>
      intro acc x
      have hstep : dedupAppend acc (f :: rest)
          = dedupAppend (if f ∈ acc then acc else acc ++ [f]) rest := rfl
      rw [hstep, ih]
      by_cases hf : f ∈ acc
      · rw [if_pos hf]
        constructor
        · rintro (h | h)
          · exact Or.inl h
          · exact Or.inr (List.mem_cons_of_mem _ h)
        · rintro (h | h)
          · exact Or.inl h
          · rcases List.mem_cons.mp h with rfl | h2
            · exact Or.inl hf
            · exact Or.inr h2
      · rw [if_neg hf]
        constructor
        · rintro (h | h)
          · rcases List.mem_append.mp h with h2 | h2
            · exact Or.inl h2
            · exact Or.inr (by
                rw [List.mem_singleton.mp h2]
                exact List.mem_cons_self f rest)
          · exact Or.inr (List.mem_cons_of_mem _ h)
        · rintro (h | h)
          · exact Or.inl (List.mem_append.mpr (Or.inl h))
          · rcases List.mem_cons.mp h with rfl | h2
            · exact Or.inl (List.mem_append.mpr (Or.inr (List.mem_singleton.mpr rfl)))
            · exact Or.inr h2

theorem dedupAppend_nodup (l : List String) :
    ∀ acc, acc.Nodup → (dedupAppend acc l).Nodup := by
  induction l with
  | nil => exact fun acc h => h
  | cons f rest ih =>
      intro acc h
      have hstep : dedupAppend acc (f :: rest)
          = dedupAppend (if f ∈ acc then acc else acc ++ [f]) rest := rfl
      rw [hstep]
      by_cases hf : f ∈ acc
      · rw [if_pos hf]
        exact ih acc h
      · rw [if_neg hf]
        refine ih _ ?_
        rw [List.nodup_append]
        exact ⟨h, List.nodup_singleton f,
          fun a ha hb => hf ((List.mem_singleton.mp hb) ▸ ha)⟩

theorem dataToLog_keys_nodup (data : Dict) (h : (data.map Prod.fst).Nodup) :
    ((dataToLog data).map Prod.fst).Nodup :=
  List.Nodup.sublist (List.Sublist.map _ (List.filter_sublist _)) h

theorem mem_dataToLog (data : Dict) (p : String × PyVal) (hp : p ∈ data)
    (hk : p.1 ≠ "errors") : p ∈ dataToLog data := by
  rw [dataToLog, List.mem_filter]
  exact ⟨hp, by simpa using hk⟩

theorem dataToLog_subset (data : Dict) : ∀ p ∈ dataToLog data, p ∈ data :=
  fun _ hp => (List.mem_filter.mp hp).1

theorem dataToLog_not_errors (data : Dict) : ∀ p ∈ dataToLog data, p.1 ≠ "errors" :=
  fun _ hp => by simpa using (List.mem_filter.mp hp).2

theorem dictGet?_expectedDict_not_mem (cell : String → String) (fns : List String)
    (k : String) (h : k ∉ fns) : dictGet? (expectedDict cell fns) k = Option.none := by
  induction fns with
  | nil => rfl
  | cons f rest ih =>
      have hne : f ≠ k := fun hh => h (hh ▸ List.mem_cons_self f rest)
      have hrest : k ∉ rest := fun hh => h (List.mem_cons_of_mem _ hh)
      rw [expectedDict, List.filterMap_cons]
      cases hv : (expectedVal cell f).map (fun v => (f, v)) with
      | none => exact ih hrest
      | some p =>
          obtain ⟨v, _, rfl⟩ := Option.map_eq_some'.mp hv
          simp only [dictGet?, if_neg hne]
          exact ih hrest

theorem dictGet?_expectedDict_mem (cell : String → String) (fns : List String)
    (k : String) (hnd : fns.Nodup) (hk : k ∈ fns) :
    dictGet? (expectedDict cell fns) k = expectedVal cell k := by
  induction fns with
  | nil => simp at hk
  | cons f rest ih =>
      rw [List.nodup_cons] at hnd
      rw [expectedDict, List.filterMap_cons]
      rcases List.mem_cons.mp hk with rfl | hkr
      · cases hv : (expectedVal cell k).map (fun v => (k, v)) with
        | none =>
            have hv0 : expectedVal cell k = Option.none := by
              cases hvv : expectedVal cell k with
              | none => rfl
              | some v => rw [hvv] at hv; simp at hv
            rw [hv0]
            exact dictGet?_expectedDict_not_mem cell rest k hnd.1
        | some p =>
            obtain ⟨v, hv2, rfl⟩ := Option.map_eq_some'.mp hv
            simp [dictGet?, hv2]
      · have hne : f ≠ k := fun hh => hnd.1 (hh ▸ hkr)
        cases hv : (expectedVal cell f).map (fun v => (f, v)) with
        | none => exact ih hnd.2 hkr
        | some p =>
            obtain ⟨v, _, rfl⟩ := Option.map_eq_some'.mp hv
            simp only [dictGet?, if_neg hne]
            exact ih hnd.2 hkr

theorem zip_map_cells (cell : String → String) (fns : List String) :
    ((fns.zip (fns.map cell)).map (fun p => ((some p.1 : Option String), (some p.2 : Option String))))
      = fns.map (fun f => ((some f : Option String), (some (cell f) : Option String))) := by
  induction fns with
  | nil => rfl
  | cons f rest ih =>
      simp only [List.map_cons, List.zip_cons_cons]
      rw [ih]

theorem processRow_fields (cell : String → String) (fns : List String) :
    ∀ acc : Dict, (∀ f ∈ fns, cellOK cell f) → fns.Nodup →
      (∀ f ∈ fns, dictGet? acc f = Option.none) →
      processRow (fns.map (fun f => (some f, some (cell f)))) acc
        = some (acc ++ expectedDict cell fns) := by
  induction fns with
  | nil =>
      intro acc _ _ _
      simp [processRow, expectedDict]
  | cons f rest ih =>
      intro acc hok hnd hacc
      rw [List.nodup_cons] at hnd
      have hof := hok f (List.mem_cons_self _ _)
      have hrestok : ∀ g ∈ rest, cellOK cell g :=
        fun g hg => hok g (List.mem_cons_of_mem _ hg)
      have haccf : dictGet? acc f = Option.none := hacc f (List.mem_cons_self _ _)
      have hacc2 : ∀ val : PyVal, ∀ g ∈ rest,
          dictGet? (acc ++ [(f, val)]) g = Option.none := by
        intro val g hg
        rw [dictGet?_append, hacc g (List.mem_cons_of_mem _ hg)]
        have hne : f ≠ g := fun hh => hnd.1 (hh ▸ hg)
        simp [dictGet?, hne]
      rw [List.map_cons]
      by_cases hp : pyEndsWith f "_present" = true
      · rw [show processRow
            ((some f, some (cell f)) :: rest.map (fun g => (some g, some (cell g)))) acc
            = processRow (rest.map (fun g => (some g, some (cell g)))) acc from by
          simp [processRow, hp]]
        rw [ih acc hrestok hnd.2 (fun g hg => hacc g (List.mem_cons_of_mem _ hg))]
        have hexp : expectedDict cell (f :: rest) = expectedDict cell rest := by
          simp [expectedDict, List.filterMap_cons, expectedVal, hp]
        rw [hexp]
      · rw [Bool.not_eq_true] at hp
        by_cases ht : f = "timestamp"
        · subst ht
          rw [show processRow
              ((some "timestamp", some (cell "timestamp"))
                :: rest.map (fun g => (some g, some (cell g)))) acc
              = processRow (rest.map (fun g => (some g, some (cell g))))
                  (dictSet acc "timestamp" (PyVal.str (cell "timestamp"))) from by
            simp [processRow, hp]]
          rw [dictSet_eq_append acc _ _ haccf, ih _ hrestok hnd.2 (hacc2 _)]
          have hexp : expectedDict cell ("timestamp" :: rest)
              = ("timestamp", PyVal.str (cell "timestamp")) :: expectedDict cell rest := by
            simp [expectedDict, List.filterMap_cons, expectedVal, hp]
          rw [hexp]
          simp [List.append_assoc]
        · by_cases hstrip : pyStrip (cell f) = ""
          · rw [show processRow
                ((some f, some (cell f)) :: rest.map (fun g => (some g, some (cell g)))) acc
                = processRow (rest.map (fun g => (some g, some (cell g))))
                    (dictSet acc f PyVal.none) from by
              simp [processRow, hp, ht, hstrip]]
            rw [dictSet_eq_append acc _ _ haccf, ih _ hrestok hnd.2 (hacc2 _)]
            have hexp : expectedDict cell (f :: rest)
                = (f, PyVal.none) :: expectedDict cell rest := by
              simp [expectedDict, List.filterMap_cons, expectedVal, hp, ht, hstrip]
            rw [hexp]
            simp [List.append_assoc]
          · have hsome : (pyFloat? (cell f)).isSome = true := by
              rcases hof with hc | hc | hc | hc
              · rw [hp] at hc
                exact absurd hc Bool.false_ne_true
              · exact absurd hc ht
              · exact absurd hc hstrip
              · exact hc
            obtain ⟨q, hq⟩ := Option.isSome_iff_exists.mp hsome
            rw [show processRow
                ((some f, some (cell f)) :: rest.map (fun g => (some g, some (cell g)))) acc
                = processRow (rest.map (fun g => (some g, some (cell g))))
                    (dictSet acc f (PyVal.float q)) from by
              simp [processRow, hp, ht, hstrip, hq]]
            rw [dictSet_eq_append acc _ _ haccf, ih _ hrestok hnd.2 (hacc2 _)]
            have hexp : expectedDict cell (f :: rest)
                = (f, PyVal.float q) :: expectedDict cell rest := by
              simp [expectedDict, List.filterMap_cons, expectedVal, hp, ht, hstrip, hq]
            rw [hexp]
            simp [List.append_assoc]

/-- C5: for a record whose non-timestamp, non-presence fields are decimal
strings, writing with DataLogger.log_csv and reading the record back
through the row conversion of process_log_file recovers the timestamp
string unchanged and every numeric field as the float its decimal string
denotes. -/
theorem log_csv_roundtrip (data : Dict) (hnd : (data.map Prod.fst).Nodup)
    (ts : String) (hts : dictGet? data "timestamp" = some (PyVal.str ts))
    (hnum : ∀ p ∈ data, p.1 ≠ "timestamp" → pyEndsWith p.1 "_present" = false →
        p.1 ≠ "errors" →
        ∃ s, p.2 = PyVal.str s ∧ pyStrip s ≠ "" ∧ (pyFloat? s).isSome = true) :
    ∃ d, readBackRow (log_csv data) = some d
      ∧ dictGet? d "timestamp" = some (PyVal.str ts)
      ∧ ∀ k s, (k, PyVal.str s) ∈ data → k ≠ "timestamp" →
          pyEndsWith k "_present" = false → k ≠ "errors" →
          dictGet? d k = (pyFloat? s).map PyVal.float := by
  have hdtlnd := dataToLog_keys_nodup data hnd
  have hfnd : (log_csv_fieldnames data).Nodup := by
    rw [log_csv_fieldnames]
    exact dedupAppend_nodup _ _ (dedupAppend_nodup _ [] List.nodup_nil)
  have hdtl : ∀ (k2 : String) (v2 : PyVal), (k2, v2) ∈ data → k2 ≠ "errors" →
      dictGet? (dataToLog data) k2 = some v2 := by
    intro k2 v2 hmem hke
    exact dictGet?_of_mem_nodup _ _ _ hdtlnd (mem_dataToLog data (k2, v2) hmem hke)
  have hcellOK : ∀ f, cellOK (csvCell (dataToLog data)) f := by
    intro f
    by_cases hp : pyEndsWith f "_present" = true
    · exact Or.inl hp
    · rw [Bool.not_eq_true] at hp
      by_cases ht : f = "timestamp"
      · exact Or.inr (Or.inl ht)
      · cases hdg : dictGet? (dataToLog data) f with
        | none =>
            refine Or.inr (Or.inr (Or.inl ?_))
            have hc0 : csvCell (dataToLog data) f = "" := by
              simp [csvCell, hdg]
            rw [hc0]
            decide
        | some v =>
            have hvm := mem_of_dictGet? _ _ _ hdg
            have hvmem : (f, v) ∈ data := dataToLog_subset data _ hvm
            have hfe : f ≠ "errors" := dataToLog_not_errors data _ hvm
            obtain ⟨s, hvs, hsne, hss⟩ := hnum (f, v) hvmem ht hp hfe
            simp only at hvs
            subst hvs
            refine Or.inr (Or.inr (Or.inr ?_))
            have hc : csvCell (dataToLog data) f = s := by
              simp [csvCell, hdg, pyStr]
            rw [hc]
            exact hss
  have hmain := processRow_fields (csvCell (dataToLog data)) (log_csv_fieldnames data)
      [] (fun f _ => hcellOK f) hfnd (fun f _ => rfl)
  have hrb : readBackRow (log_csv data)
      = some (expectedDict (csvCell (dataToLog data)) (log_csv_fieldnames data)) := by
    have hlog : log_csv data
        = (log_csv_fieldnames data,
           (log_csv_fieldnames data).map (csvCell (dataToLog data))) := rfl
    rw [readBackRow, hlog]
    rw [zip_map_cells]
    simpa using hmain
  refine ⟨expectedDict (csvCell (dataToLog data)) (log_csv_fieldnames data), hrb, ?_, ?_⟩
  · have htsm : "timestamp" ∈ log_csv_fieldnames data := by
      rw [log_csv_fieldnames, dedupAppend_mem]
      left
      rw [dedupAppend_mem]
      right
      exact List.mem_append.mpr (Or.inl (by simp [base_fieldnames]))
    rw [dictGet?_expectedDict_mem _ _ _ hfnd htsm]
    have hp : pyEndsWith "timestamp" "_present" = false := by decide
    have hdgts : dictGet? (dataToLog data) "timestamp" = some (PyVal.str ts) :=
      hdtl "timestamp" (PyVal.str ts) (mem_of_dictGet? _ _ _ hts) (by decide)
    have hcts : csvCell (dataToLog data) "timestamp" = ts := by
      simp [csvCell, hdgts, pyStr]
    simp [expectedVal, hp, hcts]
  · intro k s hmem hkt hkp hke
    have hkm : k ∈ log_csv_fieldnames data := by
      rw [log_csv_fieldnames, dedupAppend_mem]
      right
      exact List.mem_map_of_mem Prod.fst (mem_dataToLog data (k, PyVal.str s) hmem hke)
    rw [dictGet?_expectedDict_mem _ _ _ hfnd hkm]
    have hdgk : dictGet? (dataToLog data) k = some (PyVal.str s) := hdtl _ _ hmem hke
    have hck : csvCell (dataToLog data) k = s := by
      simp [csvCell, hdgk, pyStr]
    obtain ⟨s2, hvs2, hsne, _⟩ := hnum (k, PyVal.str s) hmem hkt hkp hke
    simp only [PyVal.str.injEq] at hvs2
    subst hvs2
    simp [expectedVal, hkp, hkt, hck, hsne]

/-- C5 witness: the roundtrip theorem at a concrete three-field record. -/
theorem log_csv_roundtrip_witness :
    ((([("timestamp", PyVal.str "2024-01-01T00:00:00"),
        ("aht21_present", PyVal.bool true),
        ("temperature_C", PyVal.str "21.5")] : Dict).map Prod.fst).Nodup)
    ∧ (dictGet? [("timestamp", PyVal.str "2024-01-01T00:00:00"),
        ("aht21_present", PyVal.bool true),
        ("temperature_C", PyVal.str "21.5")] "timestamp"
          = some (PyVal.str "2024-01-01T00:00:00"))
    ∧ (∀ p ∈ ([("timestamp", PyVal.str "2024-01-01T00:00:00"),
        ("aht21_present", PyVal.bool true),
        ("temperature_C", PyVal.str "21.5")] : Dict),
        p.1 ≠ "timestamp" → pyEndsWith p.1 "_present" = false → p.1 ≠ "errors" →
        ∃ s, p.2 = PyVal.str s ∧ pyStrip s ≠ "" ∧ (pyFloat? s).isSome = true)
    ∧ (∃ d, readBackRow (log_csv [("timestamp", PyVal.str "2024-01-01T00:00:00"),
        ("aht21_present", PyVal.bool true),
        ("temperature_C", PyVal.str "21.5")]) = some d
        ∧ dictGet? d "timestamp" = some (PyVal.str "2024-01-01T00:00:00")
        ∧ ∀ k s, (k, PyVal.str s) ∈ ([("timestamp", PyVal.str "2024-01-01T00:00:00"),
            ("aht21_present", PyVal.bool true),
            ("temperature_C", PyVal.str "21.5")] : Dict) → k ≠ "timestamp" →
            pyEndsWith k "_present" = false → k ≠ "errors" →
            dictGet? d k = (pyFloat? s).map PyVal.float) :=
  ⟨by decide, by decide,
   by
    intro p hp h1 h2 h3
    simp only [List.mem_cons, List.not_mem_nil, or_false] at hp
    rcases hp with rfl | rfl | rfl
    · exact absurd rfl h1
    · exact absurd h2 (by decide)
    · exact ⟨"21.5", rfl, by decide, by decide⟩,
   log_csv_roundtrip
     [("timestamp", PyVal.str "2024-01-01T00:00:00"),
      ("aht21_present", PyVal.bool true),
      ("temperature_C", PyVal.str "21.5")]
     (by decide) "2024-01-01T00:00:00" (by decide)
     (by
      intro p hp h1 h2 h3
      simp only [List.mem_cons, List.not_mem_nil, or_false] at hp
      rcases hp with rfl | rfl | rfl
      · exact absurd rfl h1
      · exact absurd h2 (by decide)
      · exact ⟨"21.5", rfl, by decide, by decide⟩)⟩
